import Mathlib

set_option maxRecDepth 8000

/-!
A shallow embedding of the lexical analyzer in `3rdprogram.c`.

The source buffer is modelled as a `List Char` (the C code works on a
NUL-terminated `const char *`; indexing past the end yields the NUL
character, which `charAt` reproduces with a default of `Char.ofNat 0`).
The mutable `LexicalAnalyzer` struct becomes an immutable record threaded
through the functions.  The `while` loops of the C code are written as
structural recursion on an explicit fuel argument; every wrapper passes a
fuel in lockstep with the loop variable (`length - pos`), so the fuel runs
out exactly when the C loop condition `pos < len` turns false, and the
embedded loop is extensionally equal to the C loop.  The keyword and
operator tables are C `static` arrays initialised by
`init_lexical_analyzer`; they are modelled as top-level constants.
Character classification is done on code points (`Char.toNat`), which is
exactly the C comparison on `char` values for the ASCII range handled by
the program.
-/

/-- The C `Token` struct: a `type` tag and the matched `value` text. -/
structure Token where
  type : String
  value : String
deriving Repr, DecidableEq

/-- The mutable part of the C `LexicalAnalyzer` struct: symbol table,
error list, token list, cursor and line counter. -/
structure LexicalAnalyzer where
  symbol_table : List String
  lexical_errors : List String
  tokens : List Token
  current_pos : Nat
  line_no : Nat
deriving Repr, DecidableEq

/-- The 32-entry keyword table (`keywords_arr` in `init_lexical_analyzer`). -/
def keywords : List String :=
  ["auto", "break", "case", "char", "const", "continue", "default", "do",
   "double", "else", "enum", "extern", "float", "for", "goto", "if",
   "int", "long", "register", "return", "short", "signed", "sizeof", "static",
   "struct", "switch", "typedef", "union", "unsigned", "void", "volatile", "while"]

/-- The operator table (`operators_arr` in `init_lexical_analyzer`). -/
def operators : List String :=
  ["+", "-", "*", "/", "%", "=", "<", ">", "!", "&", "|", "^", "~",
   "+=", "-=", "*=", "/=", "%=", "==", "<=", ">=", "!=", "&&", "||",
   ">>=", "<<=", "++", "--"]

/-- The punctuation characters: the C string `"(){},;[]."`. -/
def punctuation : List Char :=
  ['(', ')', Char.ofNat 123, Char.ofNat 125, ',', ';', '[', ']', '.']

/-- The operator characters: the C string `"+-*/%=<>!&|^~"`. -/
def operator_chars : List Char :=
  ['+', '-', '*', '/', '%', '=', '<', '>', '!', '&', '|', Char.ofNat 94, Char.ofNat 126]

/-- The double-quote character. -/
def dquote : Char := Char.ofNat 34

/-- The single-quote character. -/
def squote : Char := Char.ofNat 39

/-- `init_lexical_analyzer`: empty symbol table, error list and token list,
cursor 0, line counter 1. -/
def init_lexical_analyzer : LexicalAnalyzer :=
  { symbol_table := [], lexical_errors := [], tokens := [],
    current_pos := 0, line_no := 1 }

/-- `code[i]` on the NUL-terminated C buffer: past the end it reads NUL. -/
def charAt (code : List Char) (i : Nat) : Char :=
  code.getD i (Char.ofNat 0)

/-- `is_whitespace`: space, tab, newline or carriage return. -/
def is_whitespace (ch : Char) : Bool :=
  ch = ' ' || ch = Char.ofNat 9 || ch = Char.ofNat 10 || ch = Char.ofNat 13

/-- C `tolower` in the default locale: maps `'A'..'Z'` (65..90) to
`'a'..'z'`, leaves everything else unchanged. -/
def tolower (ch : Char) : Char :=
  if 65 ≤ ch.toNat && ch.toNat ≤ 90 then Char.ofNat (ch.toNat + 32) else ch

/-- `is_letter`: `tolower(ch)` is between `'a'` (97) and `'z'` (122). -/
def is_letter (ch : Char) : Bool :=
  97 ≤ (tolower ch).toNat && (tolower ch).toNat ≤ 122

/-- `is_digit`: between `'0'` (48) and `'9'` (57). -/
def is_digit (ch : Char) : Bool :=
  48 ≤ ch.toNat && ch.toNat ≤ 57

/-- C `isxdigit`, used by the `strtod` model: a decimal digit, `'a'..'f'`
(97..102) or `'A'..'F'` (65..70). -/
def is_hex_digit (ch : Char) : Bool :=
  is_digit ch || (97 ≤ ch.toNat && ch.toNat ≤ 102) || (65 ≤ ch.toNat && ch.toNat ≤ 70)

/-- `strchr(s, c) != NULL` for a C string holding the characters `s`:
true when `c` occurs in `s`, and also when `c` is the NUL terminator
(`strchr` finds the terminator itself). -/
def strchrFound (s : List Char) (c : Char) : Bool :=
  c = Char.ofNat 0 || s.contains c

/-- The loop of `peek_next_non_whitespace`: advance past whitespace.
Fuel is passed as `length - pos`, in lockstep with the loop variable. -/
def peekLoopAux (code : List Char) : Nat → Nat → Nat
  | 0, pos => pos
  | fuel + 1, pos =>
    if pos < code.length ∧ is_whitespace (charAt code pos) then
      peekLoopAux code fuel (pos + 1)
    else pos

/-- `peek_next_non_whitespace`: first non-whitespace character strictly
after the cursor, or NUL when none exists. -/
def peek_next_non_whitespace (la : LexicalAnalyzer) (code : List Char) : Char :=
  let pos := peekLoopAux code (code.length - (la.current_pos + 1)) (la.current_pos + 1)
  if pos < code.length then charAt code pos else Char.ofNat 0

/-- The exponent part of the C `strtod` grammar, entered after the
mantissa: an exponent marker (`e1` or `e2`), an optional sign and a
nonempty digit run; consumed only when complete, otherwise 0 characters. -/
def expConsumed (e1 e2 : Char) (s : List Char) : Nat :=
  match s with
  | [] => 0
  | e :: rest =>
    if e = e1 ∨ e = e2 then
      match rest with
      | [] => 0
      | c :: rest2 =>
        if c = '+' ∨ c = '-' then
          let d := (rest2.takeWhile is_digit).length
          if 0 < d then 2 + d else 0
        else
          let d := (rest.takeWhile is_digit).length
          if 0 < d then 1 + d else 0
    else 0

/-- Decimal branch of the C `strtod` grammar: digits with an optional
period and an optional exponent; returns how many leading characters are
consumed (0 when no conversion is performed). -/
def decimalConsumed (s : List Char) : Nat :=
  let d1 := (s.takeWhile is_digit).length
  let t1 := s.drop d1
  if 1 ≤ t1.length ∧ charAt t1 0 = '.' then
    let t2 := t1.drop 1
    let d2 := (t2.takeWhile is_digit).length
    if d1 + d2 = 0 then 0
    else d1 + 1 + d2 + expConsumed 'e' 'E' (t2.drop d2)
  else
    if d1 = 0 then 0 else d1 + expConsumed 'e' 'E' t1

/-- Hexadecimal branch of the C `strtod` grammar, entered after a leading
`0x`/`0X` (`s` is the remainder): hex digits with an optional period and an
optional binary exponent.  When no hex digit follows, only the `0` of the
prefix is consumed (1 character). -/
def hexConsumed (s : List Char) : Nat :=
  let h1 := (s.takeWhile is_hex_digit).length
  let t1 := s.drop h1
  if 1 ≤ t1.length ∧ charAt t1 0 = '.' then
    let t2 := t1.drop 1
    let h2 := (t2.takeWhile is_hex_digit).length
    if h1 + h2 = 0 then 1
    else 2 + h1 + 1 + h2 + expConsumed 'p' 'P' (t2.drop h2)
  else
    if h1 = 0 then 1 else 2 + h1 + expConsumed 'p' 'P' t1

/-- Model of the C library call `strtod(s, &endptr)`: the offset
`endptr - s`, i.e. how many leading characters the conversion consumes.
It covers the standard `strtod` grammar for subjects that do not begin
with whitespace or a sign (the source only calls it on lexemes whose
first character is a digit, which read_lexeme guarantees can contain
neither whitespace nor a sign character: both end the lexeme run). -/
def strtodConsumed (s : List Char) : Nat :=
  if 2 ≤ s.length ∧ charAt s 0 = '0' ∧ (charAt s 1 = 'x' ∨ charAt s 1 = 'X') then
    hexConsumed (s.drop 2)
  else decimalConsumed s

/-- `is_in_keywords`: linear `strcmp` search of the keyword table. -/
def is_in_keywords (lexeme : String) : Bool :=
  keywords.contains lexeme

/-- `is_in_operators`: linear `strcmp` search of the operator table. -/
def is_in_operators (op : String) : Bool :=
  operators.contains op

/-- `push_symbol`: append the identifier unless it is already present. -/
def push_symbol (la : LexicalAnalyzer) (identifier : String) : LexicalAnalyzer :=
  if la.symbol_table.contains identifier then la
  else { la with symbol_table := la.symbol_table ++ [identifier] }

/-- `push_lexical_error`: append the offending lexeme. -/
def push_lexical_error (la : LexicalAnalyzer) (error : String) : LexicalAnalyzer :=
  { la with lexical_errors := la.lexical_errors ++ [error] }

/-- `push_token`: append a token. -/
def push_token (la : LexicalAnalyzer) (token : Token) : LexicalAnalyzer :=
  { la with tokens := la.tokens ++ [token] }

/-- The lexeme-gathering loop of `read_lexeme`: consume characters that are
not whitespace, not operator characters and not punctuation, appending each
to the buffer while it holds fewer than 255 characters (the C `char[256]`
overflow guard).  Fuel is `length - pos`, in lockstep with the cursor. -/
def readLexemeLoopAux (code : List Char) : Nat → Nat → List Char → Nat × List Char
  | 0, pos, lexeme => (pos, lexeme)
  | fuel + 1, pos, lexeme =>
    if pos < code.length ∧ ¬ is_whitespace (charAt code pos)
        ∧ ¬ strchrFound operator_chars (charAt code pos)
        ∧ ¬ strchrFound punctuation (charAt code pos) then
      readLexemeLoopAux code fuel (pos + 1)
        (if lexeme.length < 255 then lexeme ++ [charAt code pos] else lexeme)
    else (pos, lexeme)

/-- The lexeme run starting at `pos`: final cursor and gathered characters. -/
def readLexemeLoop (code : List Char) (pos : Nat) : Nat × List Char :=
  readLexemeLoopAux code (code.length - pos) pos []

/-- The identifier shape test of `read_lexeme`: first character a letter or
underscore, every later character a letter, digit or underscore. -/
def identValid : List Char → Bool
  | [] => false
  | c0 :: rest =>
    (is_letter c0 || c0 = '_') &&
      rest.all (fun c => is_letter c || is_digit c || c = '_')

/-- The numeric test of `read_lexeme`: first character a digit and
`strtod` consumes the whole lexeme (`*endptr == '\0'`). -/
def numericValid : List Char → Bool
  | [] => false
  | s@(c0 :: _) => is_digit c0 && decide (strtodConsumed s = s.length)

/-- `read_lexeme`: gather the lexeme run, step the cursor back by one (the
driving loop increments it uniformly afterwards), then classify: keyword,
identifier (with the function-reference peek deciding symbol-table
insertion), numeric constant, or invalid lexeme (recorded as an error, the
returned token keeping its empty type). -/
def read_lexeme (la : LexicalAnalyzer) (code : List Char) : Token × LexicalAnalyzer :=
  let r := readLexemeLoop code la.current_pos
  let lexeme := r.2
  let la1 : LexicalAnalyzer := { la with current_pos := r.1 - 1 }
  if is_in_keywords (String.mk lexeme) then
    (⟨("Keyword"), String.mk lexeme⟩, la1)
  else if lexeme.length = 0 then
    (⟨(""), ("")⟩, la1)
  else if identValid lexeme then
    let next_char := peek_next_non_whitespace la1 code
    let la2 := if next_char ≠ '(' then push_symbol la1 (String.mk lexeme) else la1
    (⟨("Identifier"), String.mk lexeme⟩, la2)
  else if numericValid lexeme then
    (⟨("Constant"), String.mk lexeme⟩, la1)
  else
    (⟨(""), ("")⟩, push_lexical_error la1 (String.mk lexeme))

/-- The capture loop shared by `read_character` and `read_string`: copy
characters (respecting the 255-character buffer guard) until the closing
`quote` is copied (the cursor is left on it) or the input ends.  Fuel is
`length - pos`, in lockstep with the cursor. -/
def readQuotedLoopAux (code : List Char) (quote : Char) :
    Nat → Nat → List Char → Nat × List Char
  | 0, pos, acc => (pos, acc)
  | fuel + 1, pos, acc =>
    if pos < code.length then
      let ch := charAt code pos
      let acc' := if acc.length < 255 then acc ++ [ch] else acc
      if ch = quote then (pos, acc')
      else readQuotedLoopAux code quote fuel (pos + 1) acc'
    else (pos, acc)

/-- `read_character`: capture a single-quoted literal (reported with type
`String`), including both quotes; an unterminated literal runs to the end
of the input. -/
def read_character (la : LexicalAnalyzer) (code : List Char) : Token × LexicalAnalyzer :=
  let pos0 := la.current_pos + 1
  let r := readQuotedLoopAux code squote (code.length - pos0) pos0 [squote]
  (⟨("String"), String.mk r.2⟩, { la with current_pos := r.1 })

/-- `read_string`: capture a double-quoted literal, including both quotes;
an unterminated literal runs to the end of the input. -/
def read_string (la : LexicalAnalyzer) (code : List Char) : Token × LexicalAnalyzer :=
  let pos0 := la.current_pos + 1
  let r := readQuotedLoopAux code dquote (code.length - pos0) pos0 [dquote]
  (⟨("String"), String.mk r.2⟩, { la with current_pos := r.1 })

/-- `read_operator`: a one-character operator token, widened to the
two-character window when that window is in the operator table (the cursor
then advances one extra position). -/
def read_operator (la : LexicalAnalyzer) (code : List Char) : Token × LexicalAnalyzer :=
  let op := [charAt code la.current_pos]
  let next_pos := la.current_pos + 1
  if next_pos < code.length then
    let potential := [charAt code la.current_pos, charAt code next_pos]
    if is_in_operators (String.mk potential) then
      (⟨("Operator"), String.mk potential⟩, { la with current_pos := la.current_pos + 1 })
    else
      (⟨("Operator"), String.mk op⟩, la)
  else
    (⟨("Operator"), String.mk op⟩, la)

/-- The `//` loop of `skip_comment`: advance to the next newline or the end
of the input (the newline itself is not consumed).  Fuel in lockstep. -/
def skipLineLoopAux (code : List Char) : Nat → Nat → Nat
  | 0, pos => pos
  | fuel + 1, pos =>
    if pos < code.length ∧ charAt code pos ≠ Char.ofNat 10 then
      skipLineLoopAux code fuel (pos + 1)
    else pos

/-- The `/*` loop of `skip_comment`: advance while `pos < len - 1`,
counting newlines, stopping one past the `*` of a closing `*/`.
Fuel is `(length - 1) - pos`, in lockstep with the loop condition. -/
def skipBlockLoopAux (code : List Char) : Nat → Nat → Nat → Nat × Nat
  | 0, pos, line => (pos, line)
  | fuel + 1, pos, line =>
    if pos < code.length - 1 then
      let line' := if charAt code pos = Char.ofNat 10 then line + 1 else line
      if charAt code pos = '*' ∧ charAt code (pos + 1) = '/' then (pos + 1, line')
      else skipBlockLoopAux code fuel (pos + 1) line'
    else (pos, line)

/-- `skip_comment`: dispatch on `//` and `/*` openers; otherwise a no-op. -/
def skip_comment (la : LexicalAnalyzer) (code : List Char) : LexicalAnalyzer :=
  let len := code.length
  if la.current_pos + 1 < len ∧ charAt code la.current_pos = '/'
      ∧ charAt code (la.current_pos + 1) = '/' then
    { la with current_pos := skipLineLoopAux code (len - la.current_pos) la.current_pos }
  else if la.current_pos + 1 < len ∧ charAt code la.current_pos = '/'
      ∧ charAt code (la.current_pos + 1) = '*' then
    let r := skipBlockLoopAux code ((len - 1) - (la.current_pos + 2))
      (la.current_pos + 2) la.line_no
    { la with current_pos := r.1, line_no := r.2 }
  else la

/-- One iteration of the `tokenize` driving loop, dispatching on the
character class under the cursor and then applying the uniform
`current_pos++` at the bottom of the loop body. -/
def tokenizeStep (la : LexicalAnalyzer) (code : List Char) : LexicalAnalyzer :=
  let ch := charAt code la.current_pos
  if is_whitespace ch then
    let la1 := if ch = Char.ofNat 10 then { la with line_no := la.line_no + 1 } else la
    { la1 with current_pos := la1.current_pos + 1 }
  else if ch = '/' ∧ la.current_pos + 1 < code.length
      ∧ (charAt code (la.current_pos + 1) = '/' ∨ charAt code (la.current_pos + 1) = '*') then
    let la1 := skip_comment la code
    { la1 with current_pos := la1.current_pos + 1 }
  else if is_letter ch || ch = '_' || is_digit ch then
    let r := read_lexeme la code
    let la1 := if 0 < r.1.type.length then push_token r.2 r.1 else r.2
    { la1 with current_pos := la1.current_pos + 1 }
  else if ch = dquote then
    let r := read_string la code
    let la1 := push_token r.2 r.1
    { la1 with current_pos := la1.current_pos + 1 }
  else if ch = squote then
    let r := read_character la code
    let la1 := push_token r.2 r.1
    { la1 with current_pos := la1.current_pos + 1 }
  else if strchrFound operator_chars ch then
    let r := read_operator la code
    let la1 := push_token r.2 r.1
    { la1 with current_pos := la1.current_pos + 1 }
  else if strchrFound punctuation ch then
    let la1 := push_token la ⟨("Punctuation"), String.mk [ch]⟩
    { la1 with current_pos := la1.current_pos + 1 }
  else
    { la with current_pos := la.current_pos + 1 }

/-- The `while (current_pos < len)` driving loop of `tokenize`.  The fuel
bounds the number of iterations; `tokenize` passes `length + 1`, which is
sufficient because every iteration strictly advances the cursor (proved in
the termination theorem below: the final cursor reaches the length). -/
def tokenizeLoopAux (code : List Char) : Nat → LexicalAnalyzer → LexicalAnalyzer
  | 0, la => la
  | fuel + 1, la =>
    if la.current_pos < code.length then
      tokenizeLoopAux code fuel (tokenizeStep la code)
    else la

/-- `tokenize`: reset the token list and the cursor (the symbol table, the
error list and the line counter are carried over), then run the driving
loop over the whole buffer. -/
def tokenize (la : LexicalAnalyzer) (code : List Char) : LexicalAnalyzer :=
  tokenizeLoopAux code (code.length + 1)
    { la with tokens := [], current_pos := 0 }

/-!  ## Basic frame lemmas about the helper routines  -/

theorem push_symbol_tokens (la : LexicalAnalyzer) (s : String) :
    (push_symbol la s).tokens = la.tokens := by
  unfold push_symbol; split_ifs <;> rfl

theorem push_symbol_errors (la : LexicalAnalyzer) (s : String) :
    (push_symbol la s).lexical_errors = la.lexical_errors := by
  unfold push_symbol; split_ifs <;> rfl

theorem push_symbol_pos (la : LexicalAnalyzer) (s : String) :
    (push_symbol la s).current_pos = la.current_pos := by
  unfold push_symbol; split_ifs <;> rfl

theorem push_symbol_line (la : LexicalAnalyzer) (s : String) :
    (push_symbol la s).line_no = la.line_no := by
  unfold push_symbol; split_ifs <;> rfl

theorem push_symbol_symtab_append (la : LexicalAnalyzer) (s : String) :
    ∃ l, (push_symbol la s).symbol_table = la.symbol_table ++ l := by
  unfold push_symbol; split_ifs
  · exact ⟨[], (List.append_nil _).symm⟩
  · exact ⟨[s], rfl⟩

theorem push_symbol_nodup (la : LexicalAnalyzer) (s : String)
    (h : la.symbol_table.Nodup) : (push_symbol la s).symbol_table.Nodup := by
  unfold push_symbol; split_ifs with hc
  · exact h
  · simp only [List.nodup_append, List.nodup_cons, List.not_mem_nil, not_false_iff,
      List.nodup_nil, and_true, true_and]
    constructor
    · exact h
    · intro a ha hb
      simp only [List.mem_singleton] at hb
      subst hb
      exact hc (List.elem_eq_true_of_mem ha)

/-- `read_lexeme` changes the state in exactly one of three ways: only the
cursor; the cursor plus a `push_symbol`; or the cursor plus a
`push_lexical_error`. -/
theorem read_lexeme_state_cases (la : LexicalAnalyzer) (code : List Char) :
    (read_lexeme la code).2 =
        { la with current_pos := (readLexemeLoop code la.current_pos).1 - 1 } ∨
    (read_lexeme la code).2 =
        push_symbol { la with current_pos := (readLexemeLoop code la.current_pos).1 - 1 }
          (String.mk (readLexemeLoop code la.current_pos).2) ∨
    (read_lexeme la code).2 =
        push_lexical_error { la with current_pos := (readLexemeLoop code la.current_pos).1 - 1 }
          (String.mk (readLexemeLoop code la.current_pos).2) := by
  unfold read_lexeme
  dsimp only
  split_ifs <;> simp

/-- The token returned by `read_lexeme` carries one of the four lexeme
types (the empty type marks an invalid lexeme). -/
theorem read_lexeme_token_type (la : LexicalAnalyzer) (code : List Char) :
    (read_lexeme la code).1.type = ("") ∨ (read_lexeme la code).1.type = ("Keyword") ∨
    (read_lexeme la code).1.type = ("Identifier") ∨
    (read_lexeme la code).1.type = ("Constant") := by
  unfold read_lexeme
  dsimp only
  split_ifs <;> simp

theorem read_string_frame (la : LexicalAnalyzer) (code : List Char) :
    ∃ p, (read_string la code).2 = { la with current_pos := p } :=
  ⟨_, rfl⟩

theorem read_character_frame (la : LexicalAnalyzer) (code : List Char) :
    ∃ p, (read_character la code).2 = { la with current_pos := p } :=
  ⟨_, rfl⟩

theorem read_operator_frame (la : LexicalAnalyzer) (code : List Char) :
    ∃ p, (read_operator la code).2 = { la with current_pos := p } := by
  unfold read_operator
  dsimp only
  split_ifs
  · exact ⟨la.current_pos + 1, rfl⟩
  · exact ⟨la.current_pos, rfl⟩
  · exact ⟨la.current_pos, rfl⟩

theorem read_operator_type (la : LexicalAnalyzer) (code : List Char) :
    (read_operator la code).1.type = ("Operator") := by
  unfold read_operator
  dsimp only
  split_ifs <;> rfl

theorem read_operator_value_len (la : LexicalAnalyzer) (code : List Char) :
    (read_operator la code).1.value.length = 1 ∨
    (read_operator la code).1.value.length = 2 := by
  unfold read_operator
  dsimp only
  split_ifs
  · right; rfl
  · left; rfl
  · left; rfl

theorem skipBlockLoopAux_line_le (code : List Char) :
    ∀ fuel pos line, line ≤ (skipBlockLoopAux code fuel pos line).2 := by
  intro fuel
  induction fuel with
  | zero => intro pos line; exact le_refl _
  | succ n ih =>
    intro pos line
    simp only [skipBlockLoopAux]
    split_ifs <;>
      first
        | exact le_refl _
        | exact Nat.le_succ _
        | exact ih _ _
        | exact le_trans (Nat.le_succ _) (ih _ _)

theorem skip_comment_frame (la : LexicalAnalyzer) (code : List Char) :
    ∃ p n, skip_comment la code = { la with current_pos := p, line_no := n } ∧
      la.line_no ≤ n := by
  unfold skip_comment
  dsimp only
  split_ifs
  · exact ⟨_, la.line_no, rfl, le_refl _⟩
  · exact ⟨_, _, rfl, skipBlockLoopAux_line_le code _ _ _⟩
  · exact ⟨la.current_pos, la.line_no, rfl, le_refl _⟩

/-!  ## The generic loop-invariant principle for the driving loop  -/

theorem tokenizeLoopAux_invariant {code : List Char} (P : LexicalAnalyzer → Prop)
    (hstep : ∀ la, P la → P (tokenizeStep la code)) :
    ∀ fuel la, P la → P (tokenizeLoopAux code fuel la) := by
  intro fuel
  induction fuel with
  | zero => intro la h; exact h
  | succ n ih =>
    intro la h
    simp only [tokenizeLoopAux]
    split
    · exact ih _ (hstep _ h)
    · exact h

theorem push_symbol_shape (la : LexicalAnalyzer) (s : String) :
    (push_symbol la s).symbol_table = la.symbol_table ∨
    (¬ la.symbol_table.contains s = true ∧
      (push_symbol la s).symbol_table = la.symbol_table ++ [s]) := by
  unfold push_symbol
  split_ifs with h
  · exact Or.inl rfl
  · exact Or.inr ⟨h, rfl⟩

theorem push_token_symtab (la : LexicalAnalyzer) (t : Token) :
    (push_token la t).symbol_table = la.symbol_table := rfl

theorem push_token_errors (la : LexicalAnalyzer) (t : Token) :
    (push_token la t).lexical_errors = la.lexical_errors := rfl

theorem push_token_line (la : LexicalAnalyzer) (t : Token) :
    (push_token la t).line_no = la.line_no := rfl

theorem push_token_tokens (la : LexicalAnalyzer) (t : Token) :
    (push_token la t).tokens = la.tokens ++ [t] := rfl

/-- The symbol table after `read_lexeme` is unchanged or has gained one
identifier that was not present before. -/
theorem read_lexeme_symtab_shape (la : LexicalAnalyzer) (code : List Char) :
    (read_lexeme la code).2.symbol_table = la.symbol_table ∨
    ∃ s, ¬ la.symbol_table.contains s = true ∧
      (read_lexeme la code).2.symbol_table = la.symbol_table ++ [s] := by
  rcases read_lexeme_state_cases la code with hs | hs | hs <;> rw [hs]
  · exact Or.inl rfl
  · rcases push_symbol_shape
        { la with current_pos := (readLexemeLoop code la.current_pos).1 - 1 }
        (String.mk (readLexemeLoop code la.current_pos).2) with h | ⟨hc, h⟩
    · exact Or.inl h
    · exact Or.inr ⟨_, hc, h⟩
  · exact Or.inl rfl

theorem read_lexeme_errors_shape (la : LexicalAnalyzer) (code : List Char) :
    ∃ l, (read_lexeme la code).2.lexical_errors = la.lexical_errors ++ l := by
  rcases read_lexeme_state_cases la code with hs | hs | hs <;> rw [hs] <;>
    first
      | exact ⟨[], (push_symbol_errors _ _).trans (List.append_nil _).symm⟩
      | exact ⟨[String.mk (readLexemeLoop code la.current_pos).2], rfl⟩
      | exact ⟨[], (List.append_nil _).symm⟩

theorem read_lexeme_tokens_eq (la : LexicalAnalyzer) (code : List Char) :
    (read_lexeme la code).2.tokens = la.tokens := by
  rcases read_lexeme_state_cases la code with hs | hs | hs <;> rw [hs] <;>
    first
      | exact push_symbol_tokens _ _
      | rfl

theorem read_lexeme_line_eq (la : LexicalAnalyzer) (code : List Char) :
    (read_lexeme la code).2.line_no = la.line_no := by
  rcases read_lexeme_state_cases la code with hs | hs | hs <;> rw [hs] <;>
    first
      | exact push_symbol_line _ _
      | rfl

theorem nodup_append_not_contains {l : List String} {s : String}
    (hc : ¬ l.contains s = true) (h : l.Nodup) : (l ++ [s]).Nodup := by
  simp only [List.nodup_append, List.nodup_cons, List.not_mem_nil, not_false_iff,
    List.nodup_nil, and_true, true_and]
  refine ⟨h, ?_⟩
  intro a ha hb
  simp only [List.mem_singleton] at hb
  subst hb
  exact hc (List.elem_eq_true_of_mem ha)

/-- One driving-loop iteration can only: leave the symbol table alone or
append one absent identifier; append to the error list; append tokens whose
`Operator` entries have at most two characters; and keep or grow the line
counter. -/
theorem tokenizeStep_effects (la : LexicalAnalyzer) (code : List Char) :
    ((tokenizeStep la code).symbol_table = la.symbol_table ∨
      ∃ s, ¬ la.symbol_table.contains s = true ∧
        (tokenizeStep la code).symbol_table = la.symbol_table ++ [s]) ∧
    (∃ l, (tokenizeStep la code).lexical_errors = la.lexical_errors ++ l) ∧
    (∃ l, (tokenizeStep la code).tokens = la.tokens ++ l ∧
      ∀ t ∈ l, t.type = ("Operator") → t.value.length ≤ 2) ∧
    la.line_no ≤ (tokenizeStep la code).line_no := by
  unfold tokenizeStep
  dsimp only
  split_ifs with h1 h2 h3 h4 h5 h6 h7 h8 h9
  -- whitespace, newline
  · exact ⟨Or.inl rfl, ⟨[], (List.append_nil _).symm⟩, ⟨[], (List.append_nil _).symm, by simp⟩, Nat.le_succ _⟩
  -- whitespace, not newline
  · exact ⟨Or.inl rfl, ⟨[], (List.append_nil _).symm⟩, ⟨[], (List.append_nil _).symm, by simp⟩, le_refl _⟩
  -- comment
  · obtain ⟨p, n, hc, hn⟩ := skip_comment_frame la code
    rw [hc]
    exact ⟨Or.inl rfl, ⟨[], (List.append_nil _).symm⟩, ⟨[], (List.append_nil _).symm, by simp⟩, hn⟩
  -- lexeme, token pushed
  · refine ⟨?_, read_lexeme_errors_shape la code, ⟨[(read_lexeme la code).1],
      congrArg (· ++ [(read_lexeme la code).1]) (read_lexeme_tokens_eq la code), ?_⟩,
      le_of_eq (read_lexeme_line_eq la code).symm⟩
    · rcases read_lexeme_symtab_shape la code with h | ⟨s, hc', h⟩
      · exact Or.inl h
      · exact Or.inr ⟨s, hc', h⟩
    · intro t htl htype
      simp only [List.mem_singleton] at htl
      subst htl
      rcases read_lexeme_token_type la code with ht | ht | ht | ht <;>
        rw [ht] at htype <;> exact absurd htype (by decide)
  -- lexeme, no token
  · refine ⟨?_, read_lexeme_errors_shape la code,
      ⟨[], (read_lexeme_tokens_eq la code).trans (List.append_nil _).symm, by simp⟩,
      le_of_eq (read_lexeme_line_eq la code).symm⟩
    rcases read_lexeme_symtab_shape la code with h | ⟨s, hc', h⟩
    · exact Or.inl h
    · exact Or.inr ⟨s, hc', h⟩
  -- string literal
  · obtain ⟨p, hp⟩ := read_string_frame la code
    rw [hp]
    refine ⟨Or.inl rfl, ⟨[], (List.append_nil _).symm⟩,
      ⟨[(read_string la code).1], rfl, ?_⟩, le_refl _⟩
    intro t htl htype
    simp only [List.mem_singleton] at htl
    subst htl
    exact absurd htype (show ("String" : String) ≠ ("Operator") by decide)
  -- character literal
  · obtain ⟨p, hp⟩ := read_character_frame la code
    rw [hp]
    refine ⟨Or.inl rfl, ⟨[], (List.append_nil _).symm⟩,
      ⟨[(read_character la code).1], rfl, ?_⟩, le_refl _⟩
    intro t htl htype
    simp only [List.mem_singleton] at htl
    subst htl
    exact absurd htype (show ("String" : String) ≠ ("Operator") by decide)
  -- operator
  · obtain ⟨p, hp⟩ := read_operator_frame la code
    rw [hp]
    refine ⟨Or.inl rfl, ⟨[], (List.append_nil _).symm⟩,
      ⟨[(read_operator la code).1], rfl, ?_⟩, le_refl _⟩
    intro t htl htype
    simp only [List.mem_singleton] at htl
    subst htl
    rcases read_operator_value_len la code with h | h <;> omega
  -- punctuation
  · refine ⟨Or.inl rfl, ⟨[], (List.append_nil _).symm⟩,
      ⟨[⟨("Punctuation"), String.mk [charAt code la.current_pos]⟩], rfl, ?_⟩, le_refl _⟩
    intro t htl htype
    simp only [List.mem_singleton] at htl
    subst htl
    exact absurd htype (show ("Punctuation" : String) ≠ ("Operator") by decide)
  -- unclassified character
  · exact ⟨Or.inl rfl, ⟨[], (List.append_nil _).symm⟩, ⟨[], (List.append_nil _).symm, by simp⟩, le_refl _⟩

/-!  ## Loop-level consequences of the step effects  -/

theorem tokenizeLoopAux_symtab_append (code : List Char) :
    ∀ fuel la, ∃ l, (tokenizeLoopAux code fuel la).symbol_table = la.symbol_table ++ l := by
  intro fuel
  induction fuel with
  | zero => intro la; exact ⟨[], (List.append_nil _).symm⟩
  | succ n ih =>
    intro la
    simp only [tokenizeLoopAux]
    split
    · obtain ⟨l2, h2⟩ := ih (tokenizeStep la code)
      rcases (tokenizeStep_effects la code).1 with h1 | ⟨s, _, h1⟩
      · exact ⟨l2, by rw [h2, h1]⟩
      · exact ⟨[s] ++ l2, by rw [h2, h1, List.append_assoc]⟩
    · exact ⟨[], (List.append_nil _).symm⟩

theorem tokenizeLoopAux_errors_append (code : List Char) :
    ∀ fuel la, ∃ l, (tokenizeLoopAux code fuel la).lexical_errors = la.lexical_errors ++ l := by
  intro fuel
  induction fuel with
  | zero => intro la; exact ⟨[], (List.append_nil _).symm⟩
  | succ n ih =>
    intro la
    simp only [tokenizeLoopAux]
    split
    · obtain ⟨l2, h2⟩ := ih (tokenizeStep la code)
      obtain ⟨l1, h1⟩ := (tokenizeStep_effects la code).2.1
      exact ⟨l1 ++ l2, by rw [h2, h1, List.append_assoc]⟩
    · exact ⟨[], (List.append_nil _).symm⟩

theorem tokenizeLoopAux_line_le (code : List Char) :
    ∀ fuel la, la.line_no ≤ (tokenizeLoopAux code fuel la).line_no := by
  intro fuel
  induction fuel with
  | zero => intro la; exact le_refl _
  | succ n ih =>
    intro la
    simp only [tokenizeLoopAux]
    split
    · exact le_trans (tokenizeStep_effects la code).2.2.2 (ih (tokenizeStep la code))
    · exact le_refl _

theorem tokenizeLoopAux_nodup (code : List Char) (fuel : Nat) (la : LexicalAnalyzer)
    (h : la.symbol_table.Nodup) : (tokenizeLoopAux code fuel la).symbol_table.Nodup := by
  refine tokenizeLoopAux_invariant (fun x => x.symbol_table.Nodup) ?_ fuel la h
  intro x hx
  rcases (tokenizeStep_effects x code).1 with h1 | ⟨s, hc, h1⟩
  · rw [h1]; exact hx
  · rw [h1]; exact nodup_append_not_contains hc hx

theorem tokenizeLoopAux_operator_short (code : List Char) (fuel : Nat) (la : LexicalAnalyzer)
    (h : ∀ t ∈ la.tokens, t.type = ("Operator") → t.value.length ≤ 2) :
    ∀ t ∈ (tokenizeLoopAux code fuel la).tokens, t.type = ("Operator") → t.value.length ≤ 2 := by
  refine tokenizeLoopAux_invariant
    (fun x => ∀ t ∈ x.tokens, t.type = ("Operator") → t.value.length ≤ 2) ?_ fuel la h
  intro x hx
  obtain ⟨l, hl, hgood⟩ := (tokenizeStep_effects x code).2.2.1
  rw [hl]
  intro t ht
  rcases List.mem_append.mp ht with h1 | h1
  · exact hx t h1
  · exact hgood t h1

example :
    (tokenize init_lexical_analyzer ("int x = 10;").toList).tokens =
      [⟨("Keyword"), ("int")⟩, ⟨("Identifier"), ("x")⟩, ⟨("Operator"), ("=")⟩,
       ⟨("Constant"), ("10")⟩, ⟨("Punctuation"), (";")⟩] := by decide

example :
    (tokenize init_lexical_analyzer ("int x = 10;").toList).symbol_table = [("x")] := by
  decide

/-!  ## Claim theorems  -/

/-- **C3 (counterexample)** The claim predicts that an identifier with at
least one occurrence followed by `(` is absent from the final symbol table
even when it occurs elsewhere without a following `(`.  On the input
`f f()` the identifier `f` has such an occurrence (the second), yet the
final symbol table contains `f`: the first occurrence, not followed by
`(`, inserted it. -/
theorem function_identifier_in_symbol_table_cex :
    (tokenize init_lexical_analyzer ("f f()").toList).symbol_table = [("f")] ∧
    ("f") ∈ (tokenize init_lexical_analyzer ("f f()").toList).symbol_table := by
  constructor
  · decide
  · decide

/-- **C3 (amended)** An occurrence of an identifier whose next
non-whitespace character is `(` does not itself insert the identifier:
`read_lexeme` leaves the symbol table unchanged whenever the peek after
the gathered lexeme returns `(`.  The identifier is only absent from the
final table when every occurrence is followed by `(`; an occurrence
elsewhere without a following `(` does insert it, as on `f f()` where the
table ends up holding `f`. -/
theorem function_reference_occurrence_adds_nothing :
    (∀ (la : LexicalAnalyzer) (code : List Char),
      peek_next_non_whitespace
          { la with current_pos := (readLexemeLoop code la.current_pos).1 - 1 } code = '(' →
      (read_lexeme la code).2.symbol_table = la.symbol_table) ∧
    (tokenize init_lexical_analyzer ("f f()").toList).symbol_table = [("f")] := by
  refine ⟨?_, by decide⟩
  intro la code h
  unfold read_lexeme
  dsimp only
  split_ifs with h1 h2 h3 h4 h5 <;> first | rfl | exact absurd h h4

/-- Witness for the amended C3 theorem: on the input `f()` the lexeme `f`
is followed by `(` and `read_lexeme` leaves the (empty) symbol table
unchanged. -/
theorem function_reference_occurrence_adds_nothing_witness :
    peek_next_non_whitespace
        { init_lexical_analyzer with
            current_pos := (readLexemeLoop (("f()").toList) init_lexical_analyzer.current_pos).1 - 1 }
        (("f()").toList) = '(' ∧
    (read_lexeme init_lexical_analyzer (("f()").toList)).2.symbol_table =
      init_lexical_analyzer.symbol_table :=
  ⟨by decide,
    function_reference_occurrence_adds_nothing.1 init_lexical_analyzer (("f()").toList)
      (by decide)⟩

/-- **C4** Operator matching is maximal munch with a lookahead of exactly
one: when the two-character window at the cursor is in the operator table,
`read_operator` returns that window as a single `Operator` token and
advances the cursor by the one extra position; otherwise it returns the
one-character token and leaves the cursor alone (the driving loop then
applies its uniform increment).  In particular `a == b` scans to
`Identifier a`, a single `Operator ==`, `Identifier b`. -/
theorem operator_maximal_munch :
    (∀ (la : LexicalAnalyzer) (code : List Char),
      la.current_pos + 1 < code.length →
      is_in_operators
          (String.mk [charAt code la.current_pos, charAt code (la.current_pos + 1)]) = true →
      read_operator la code =
        (⟨("Operator"), String.mk [charAt code la.current_pos, charAt code (la.current_pos + 1)]⟩,
          { la with current_pos := la.current_pos + 1 })) ∧
    (∀ (la : LexicalAnalyzer) (code : List Char),
      ¬ (la.current_pos + 1 < code.length ∧
        is_in_operators
          (String.mk [charAt code la.current_pos, charAt code (la.current_pos + 1)]) = true) →
      read_operator la code = (⟨("Operator"), String.mk [charAt code la.current_pos]⟩, la)) ∧
    (tokenize init_lexical_analyzer ("a == b").toList).tokens =
      [⟨("Identifier"), ("a")⟩, ⟨("Operator"), ("==")⟩, ⟨("Identifier"), ("b")⟩] := by
  refine ⟨?_, ?_, by decide⟩
  · intro la code h1 h2
    unfold read_operator
    dsimp only
    rw [if_pos h1, if_pos h2]
  · intro la code h
    by_cases h1 : la.current_pos + 1 < code.length
    · have h2 : ¬ is_in_operators
          (String.mk [charAt code la.current_pos, charAt code (la.current_pos + 1)]) = true :=
        fun hh => h ⟨h1, hh⟩
      unfold read_operator
      dsimp only
      rw [if_pos h1, if_neg h2]
    · unfold read_operator
      dsimp only
      rw [if_neg h1]

/-- Witness for the C4 theorem: the two-character window at the start of
`==` is in the operator table and `read_operator` consumes both
characters. -/
theorem operator_maximal_munch_witness :
    init_lexical_analyzer.current_pos + 1 < (("==").toList).length ∧
    is_in_operators (String.mk [charAt (("==").toList) init_lexical_analyzer.current_pos,
      charAt (("==").toList) (init_lexical_analyzer.current_pos + 1)]) = true ∧
    read_operator init_lexical_analyzer (("==").toList) =
      (⟨("Operator"), String.mk [charAt (("==").toList) init_lexical_analyzer.current_pos,
          charAt (("==").toList) (init_lexical_analyzer.current_pos + 1)]⟩,
        { init_lexical_analyzer with current_pos := init_lexical_analyzer.current_pos + 1 }) :=
  ⟨by decide, by decide,
    operator_maximal_munch.1 init_lexical_analyzer (("==").toList) (by decide) (by decide)⟩

/-- **C7** A gathered lexeme that is nonempty, not a keyword, not a valid
identifier and not a parseable number produces no token (the returned
token type stays empty, so the driving loop pushes nothing) and appends
exactly the lexeme text to the error list.  On the whole input `1a2b` the
scan yields no token and the single error entry `1a2b`; on `1a2b c` the
scan continues past the invalid lexeme and still tokenizes `c`. -/
theorem invalid_lexeme_recorded_scan_continues :
    (∀ (la : LexicalAnalyzer) (code : List Char),
      ¬ is_in_keywords (String.mk (readLexemeLoop code la.current_pos).2) = true →
      ¬ (readLexemeLoop code la.current_pos).2.length = 0 →
      ¬ identValid (readLexemeLoop code la.current_pos).2 = true →
      ¬ numericValid (readLexemeLoop code la.current_pos).2 = true →
      read_lexeme la code =
        (⟨(""), ("")⟩,
          { la with
              current_pos := (readLexemeLoop code la.current_pos).1 - 1,
              lexical_errors :=
                la.lexical_errors ++ [String.mk (readLexemeLoop code la.current_pos).2] })) ∧
    (tokenize init_lexical_analyzer ("1a2b").toList).tokens = [] ∧
    (tokenize init_lexical_analyzer ("1a2b").toList).lexical_errors = [("1a2b")] ∧
    (tokenize init_lexical_analyzer ("1a2b c").toList).tokens = [⟨("Identifier"), ("c")⟩] ∧
    (tokenize init_lexical_analyzer ("1a2b c").toList).lexical_errors = [("1a2b")] := by
  refine ⟨?_, by decide, by decide, by decide, by decide⟩
  intro la code hk he hid hnum
  unfold read_lexeme
  dsimp only
  rw [if_neg hk, if_neg he, if_neg hid, if_neg hnum]
  rfl

/-- Witness for the C7 theorem at the input `1a2b`: the lexeme fails all
three classifications and lands verbatim in the error list. -/
theorem invalid_lexeme_recorded_scan_continues_witness :
    (¬ is_in_keywords
        (String.mk (readLexemeLoop (("1a2b").toList) init_lexical_analyzer.current_pos).2) = true) ∧
    (¬ (readLexemeLoop (("1a2b").toList) init_lexical_analyzer.current_pos).2.length = 0) ∧
    (¬ identValid (readLexemeLoop (("1a2b").toList) init_lexical_analyzer.current_pos).2 = true) ∧
    (¬ numericValid (readLexemeLoop (("1a2b").toList) init_lexical_analyzer.current_pos).2 = true) ∧
    read_lexeme init_lexical_analyzer (("1a2b").toList) =
      (⟨(""), ("")⟩,
        { init_lexical_analyzer with
            current_pos := (readLexemeLoop (("1a2b").toList) init_lexical_analyzer.current_pos).1 - 1,
            lexical_errors := init_lexical_analyzer.lexical_errors ++
              [String.mk (readLexemeLoop (("1a2b").toList) init_lexical_analyzer.current_pos).2] }) :=
  ⟨by decide, by decide, by decide, by decide,
    invalid_lexeme_recorded_scan_continues.1 init_lexical_analyzer (("1a2b").toList)
      (by decide) (by decide) (by decide) (by decide)⟩

/-- **C10** The newline that ends a `//` line comment is stepped over by
the driving loop outside the whitespace branch, so it is not counted: on
`//x` followed by a newline and `b`, the input holds one newline but the
final line counter is still 1, strictly less than 1 plus the newline
count; the scan still continues past the comment and tokenizes `b`. -/
theorem line_comment_newline_uncounted :
    (tokenize init_lexical_analyzer ("//x\nb").toList).line_no = 1 ∧
    (("//x\nb").toList.count (Char.ofNat 10)) = 1 ∧
    (tokenize init_lexical_analyzer ("//x\nb").toList).line_no <
      1 + (("//x\nb").toList.count (Char.ofNat 10)) ∧
    (tokenize init_lexical_analyzer ("//x\nb").toList).tokens = [⟨("Identifier"), ("b")⟩] := by
  refine ⟨by decide, by decide, by decide, by decide⟩

/-- **C1 (counterexample)** On the input `//` (a line comment reaching the
end of the input) the scan leaves the cursor at 3, one past the input
length 2: the claim that the cursor always ends exactly at the input
length is false. -/
theorem tokenize_cursor_not_length_cex :
    (tokenize init_lexical_analyzer ("//").toList).current_pos = 3 ∧
    ("//").toList.length = 2 ∧
    (tokenize init_lexical_analyzer ("//").toList).current_pos ≠ ("//").toList.length := by
  refine ⟨by decide, by decide, by decide⟩

/-- **C2 (counterexample)** The well-formed floating-point literal `3.14`
scanned as the whole input does not yield one `Constant` token: `.` is in
the punctuation set, so the scan yields `Constant 3`, `Punctuation .`,
`Constant 14`. -/
theorem float_literal_split_cex :
    (tokenize init_lexical_analyzer ("3.14").toList).tokens =
      [⟨("Constant"), ("3")⟩, ⟨("Punctuation"), (".")⟩, ⟨("Constant"), ("14")⟩] ∧
    (tokenize init_lexical_analyzer ("3.14").toList).tokens ≠ [⟨("Constant"), ("3.14")⟩] := by
  refine ⟨by decide, by decide⟩

/-- **C5** Every `Operator` token emitted by a scan has at most two
characters, so the three-character operator-table entries are never
produced as tokens; and since the two-character window test knows no
shift operators, the input `>>` yields two one-character `Operator`
tokens. -/
theorem operator_tokens_at_most_two_chars :
    (∀ (la : LexicalAnalyzer) (code : List Char) (t : Token),
      t ∈ (tokenize la code).tokens → t.type = ("Operator") → t.value.length ≤ 2) ∧
    (tokenize init_lexical_analyzer (">>").toList).tokens =
      [⟨("Operator"), (">")⟩, ⟨("Operator"), (">")⟩] := by
  refine ⟨?_, by decide⟩
  intro la code t ht
  unfold tokenize at ht
  exact tokenizeLoopAux_operator_short code (code.length + 1) _
    (by intro u hu; exact absurd hu (List.not_mem_nil u)) t ht

/-- Witness for the C5 theorem: the first `>` token of the scan of `>>`
is an `Operator` token of length 1 ≤ 2. -/
theorem operator_tokens_at_most_two_chars_witness :
    (⟨("Operator"), (">")⟩ : Token) ∈ (tokenize init_lexical_analyzer (">>").toList).tokens ∧
    (⟨("Operator"), (">")⟩ : Token).type = ("Operator") ∧
    (⟨("Operator"), (">")⟩ : Token).value.length ≤ 2 :=
  ⟨by decide, by decide,
    operator_tokens_at_most_two_chars.1 init_lexical_analyzer ((">>").toList)
      ⟨("Operator"), (">")⟩ (by decide) (by decide)⟩

/-- **C6** The symbol table of a scan started from the freshly initialised
analyzer never holds duplicates: every identifier present appears exactly
once, however often it occurs in the source — on `x y x x` the table is
just `x, y`. -/
theorem symbol_table_no_duplicates :
    (∀ (code : List Char) (s : String),
      s ∈ (tokenize init_lexical_analyzer code).symbol_table →
      ((tokenize init_lexical_analyzer code).symbol_table).count s = 1) ∧
    (tokenize init_lexical_analyzer ("x y x x").toList).symbol_table = [("x"), ("y")] := by
  refine ⟨?_, by decide⟩
  intro code s hs
  have hn : ((tokenize init_lexical_analyzer code).symbol_table).Nodup := by
    unfold tokenize
    exact tokenizeLoopAux_nodup code (code.length + 1) _ List.nodup_nil
  exact List.count_eq_one_of_mem hn hs

/-- Witness for the C6 theorem: on `x y x x` the identifier `x` is in the
symbol table and counted once. -/
theorem symbol_table_no_duplicates_witness :
    ("x") ∈ (tokenize init_lexical_analyzer ("x y x x").toList).symbol_table ∧
    ((tokenize init_lexical_analyzer ("x y x x").toList).symbol_table).count ("x") = 1 :=
  ⟨by decide, symbol_table_no_duplicates.1 (("x y x x").toList) ("x") (by decide)⟩

/-- **C9** A repeated `tokenize` call resets exactly the token list and
the cursor (its result does not depend on their incoming values), while
the symbol table and the error list are only ever extended and the line
counter never decreases; scanning `a 1x` and then `b 2y` on the same
analyzer accumulates both symbol tables and both error lists but reports
only the second scan's tokens. -/
theorem tokenize_frame_effects :
    (∀ (la : LexicalAnalyzer) (code : List Char) (t : List Token) (p : Nat),
      tokenize { la with tokens := t, current_pos := p } code = tokenize la code) ∧
    (∀ (la : LexicalAnalyzer) (code : List Char),
      ∃ l, (tokenize la code).symbol_table = la.symbol_table ++ l) ∧
    (∀ (la : LexicalAnalyzer) (code : List Char),
      ∃ l, (tokenize la code).lexical_errors = la.lexical_errors ++ l) ∧
    (∀ (la : LexicalAnalyzer) (code : List Char), la.line_no ≤ (tokenize la code).line_no) ∧
    (tokenize (tokenize init_lexical_analyzer ("a 1x").toList) ("b 2y").toList).symbol_table
        = [("a"), ("b")] ∧
    (tokenize (tokenize init_lexical_analyzer ("a 1x").toList) ("b 2y").toList).lexical_errors
        = [("1x"), ("2y")] ∧
    (tokenize (tokenize init_lexical_analyzer ("a 1x").toList) ("b 2y").toList).tokens
        = [⟨("Identifier"), ("b")⟩] := by
  refine ⟨?_, ?_, ?_, ?_, by decide, by decide, by decide⟩
  · intro la code t p
    rfl
  · intro la code
    unfold tokenize
    exact tokenizeLoopAux_symtab_append code _ _
  · intro la code
    unfold tokenize
    exact tokenizeLoopAux_errors_append code _ _
  · intro la code
    unfold tokenize
    exact tokenizeLoopAux_line_le code (code.length + 1)
      { la with tokens := [], current_pos := 0 }

/-- When no closing quote occurs in the remaining input, the quoted-capture
loop copies everything up to the end of the input (given room in the
255-character buffer) and stops with the cursor at the length. -/
theorem readQuotedLoopAux_no_quote (code : List Char) (quote : Char) :
    ∀ fuel pos acc, fuel = code.length - pos → pos ≤ code.length →
      (∀ i, pos ≤ i → i < code.length → charAt code i ≠ quote) →
      acc.length + fuel ≤ 255 →
      readQuotedLoopAux code quote fuel pos acc = (code.length, acc ++ code.drop pos) := by
  intro fuel
  induction fuel with
  | zero =>
    intro pos acc hf hle hq hlen
    have hp : pos = code.length := by omega
    subst hp
    simp [readQuotedLoopAux, List.drop_length]
  | succ n ih =>
    intro pos acc hf hle hq hlen
    have hlt : pos < code.length := by omega
    have hch : charAt code pos ≠ quote := hq pos (le_refl _) hlt
    have hacclen : acc.length < 255 := by omega
    simp only [readQuotedLoopAux]
    rw [if_pos hlt]
    rw [if_pos hacclen, if_neg hch]
    rw [ih (pos + 1) (acc ++ [charAt code pos]) (by omega) hlt
      (fun i h1 h2 => hq i (by omega) h2) (by simp; omega)]
    have hdrop : code.drop pos = charAt code pos :: code.drop (pos + 1) := by
      rw [List.drop_eq_getElem_cons hlt]
      rw [show charAt code pos = code[pos] from List.getD_eq_getElem code _ hlt]
    rw [hdrop, List.append_assoc]
    rfl

/-- **C8** An unterminated string literal (an opening double quote with no
closing quote before the end of the input) is captured verbatim to the end
of the input, a `String`-kind token is still produced, and the analyzer
state changes only in its cursor — in particular no error entry is added.
Concretely, scanning the three-character inputs consisting of a double
(resp. single) quote followed by `ab` yields exactly one `String` token
holding the whole input and an empty error list. -/
theorem unterminated_literal_captured_without_error :
    (∀ (la : LexicalAnalyzer) (code : List Char),
      la.current_pos < code.length →
      (∀ i, la.current_pos + 1 ≤ i → i < code.length → charAt code i ≠ dquote) →
      code.length ≤ la.current_pos + 255 →
      read_string la code =
        (⟨("String"), String.mk (dquote :: code.drop (la.current_pos + 1))⟩,
          { la with current_pos := code.length })) ∧
    (tokenize init_lexical_analyzer [dquote, 'a', 'b']).tokens =
      [⟨("String"), String.mk [dquote, 'a', 'b']⟩] ∧
    (tokenize init_lexical_analyzer [dquote, 'a', 'b']).lexical_errors = [] ∧
    (tokenize init_lexical_analyzer [squote, 'a', 'b']).tokens =
      [⟨("String"), String.mk [squote, 'a', 'b']⟩] ∧
    (tokenize init_lexical_analyzer [squote, 'a', 'b']).lexical_errors = [] := by
  refine ⟨?_, by decide, by decide, by decide, by decide⟩
  intro la code hpos hq hlen
  unfold read_string
  dsimp only
  rw [readQuotedLoopAux_no_quote code dquote _ _ _ rfl (by omega) hq (by simp; omega)]
  rfl

/-- Witness for the C8 theorem: a double quote followed by `a`, with no
closing quote, is captured whole as one `String` token and the cursor ends
at the input length. -/
theorem unterminated_literal_captured_without_error_witness :
    init_lexical_analyzer.current_pos < ([dquote, 'a']).length ∧
    read_string init_lexical_analyzer [dquote, 'a'] =
      (⟨("String"), String.mk (dquote :: (([dquote, 'a'] : List Char)).drop
          (init_lexical_analyzer.current_pos + 1))⟩,
        { init_lexical_analyzer with current_pos := ([dquote, 'a']).length }) :=
  ⟨by decide,
    unterminated_literal_captured_without_error.1 init_lexical_analyzer [dquote, 'a']
      (by decide)
      (by
        intro i h1 h2
        have h1' : 1 ≤ i := by simpa [init_lexical_analyzer] using h1
        have h2' : i < 2 := by simpa using h2
        interval_cases i
        decide)
      (by decide)⟩

/-!  ## Character-class facts used by the digit-run and cursor-bound proofs  -/

theorem is_digit_toNat {c : Char} (h : is_digit c = true) :
    48 ≤ c.toNat ∧ c.toNat ≤ 57 := by
  simpa [is_digit] using h

theorem is_digit_of_toNat {c : Char} (h : 48 ≤ c.toNat ∧ c.toNat ≤ 57) :
    is_digit c = true := by
  simpa [is_digit] using h

theorem is_letter_digit_false {c : Char} (hc : is_digit c = true) :
    is_letter c = false := by
  have h := is_digit_toNat hc
  unfold is_letter tolower
  split_ifs with h1
  · exfalso
    simp only [Bool.and_eq_true, decide_eq_true_eq] at h1
    omega
  · have h2 : ¬ (97 ≤ c.toNat) := by omega
    simp [h2]

theorem digit_ne {c : Char} (hc : is_digit c = true) :
    c ≠ '/' ∧ c ≠ '_' ∧ c ≠ dquote ∧ c ≠ squote := by
  have h := is_digit_toNat hc
  refine ⟨?_, ?_, ?_, ?_⟩ <;> intro h1 <;> subst h1 <;> exact absurd h (by decide)

theorem digit_char_facts {c : Char} (hc : is_digit c = true) :
    is_whitespace c = false ∧ strchrFound operator_chars c = false ∧
    strchrFound punctuation c = false := by
  have h := is_digit_toNat hc
  refine ⟨?_, ?_, ?_⟩
  · by_contra hh
    rw [Bool.not_eq_false] at hh
    simp only [is_whitespace, Bool.or_eq_true, decide_eq_true_eq] at hh
    rcases hh with ((h1 | h1) | h1) | h1 <;> subst h1 <;> exact absurd h (by decide)
  · by_contra hh
    rw [Bool.not_eq_false] at hh
    simp only [strchrFound, Bool.or_eq_true, decide_eq_true_eq] at hh
    rcases hh with h1 | h1
    · subst h1; exact absurd h (by decide)
    · have hmem := List.mem_of_elem_eq_true h1
      simp only [operator_chars, List.mem_cons, List.not_mem_nil, or_false] at hmem
      rcases hmem with h1 | h1 | h1 | h1 | h1 | h1 | h1 | h1 | h1 | h1 | h1 | h1 | h1 <;>
        subst h1 <;> exact absurd h (by decide)
  · by_contra hh
    rw [Bool.not_eq_false] at hh
    simp only [strchrFound, Bool.or_eq_true, decide_eq_true_eq] at hh
    rcases hh with h1 | h1
    · subst h1; exact absurd h (by decide)
    · have hmem := List.mem_of_elem_eq_true h1
      simp only [punctuation, List.mem_cons, List.not_mem_nil, or_false] at hmem
      rcases hmem with h1 | h1 | h1 | h1 | h1 | h1 | h1 | h1 | h1 <;>
        subst h1 <;> exact absurd h (by decide)

theorem digit_identValid_false {c : Char} (t : List Char) (hc : is_digit c = true) :
    identValid (c :: t) = false := by
  simp [identValid, is_letter_digit_false hc, (digit_ne hc).2.1]

theorem keywords_head_not_digit :
    ∀ k ∈ keywords, is_digit (charAt k.data 0) = false := by decide

theorem digit_lexeme_not_keyword {c : Char} (t : List Char) (hc : is_digit c = true) :
    is_in_keywords (String.mk (c :: t)) = false := by
  by_contra h
  rw [Bool.not_eq_false] at h
  have hmem : String.mk (c :: t) ∈ keywords := List.mem_of_elem_eq_true h
  have hd := keywords_head_not_digit _ hmem
  rw [show charAt (String.mk (c :: t)).data 0 = c from rfl] at hd
  simp [hd] at hc

theorem strtodConsumed_all_digits (s : List Char) (hall : ∀ c ∈ s, is_digit c = true) :
    strtodConsumed s = s.length := by
  have htake : s.takeWhile is_digit = s := List.takeWhile_eq_self_iff.mpr hall
  unfold strtodConsumed
  rw [if_neg ?hna]
  case hna =>
    rintro ⟨h2, h0, hx⟩
    have h1lt : 1 < s.length := by omega
    have hch : charAt s 1 = s[1] := List.getD_eq_getElem s (Char.ofNat 0) h1lt
    have hdig : is_digit (charAt s 1) = true := by
      rw [hch]
      exact hall _ (List.getElem_mem h1lt)
    rcases hx with hx | hx <;> rw [hx] at hdig <;> exact absurd hdig (by decide)
  unfold decimalConsumed
  dsimp only
  rw [htake, List.drop_length]
  rw [if_neg (by simp)]
  by_cases hz : s.length = 0
  · rw [if_pos hz]
    omega
  · rw [if_neg hz]
    simp [expConsumed]

/-- When every remaining character continues the lexeme run, the gathering
loop consumes the whole input and accumulates it (given buffer room). -/
theorem readLexemeLoopAux_all (code : List Char) :
    ∀ fuel pos acc, fuel = code.length - pos → pos ≤ code.length →
      (∀ i, pos ≤ i → i < code.length →
        is_whitespace (charAt code i) = false ∧
        strchrFound operator_chars (charAt code i) = false ∧
        strchrFound punctuation (charAt code i) = false) →
      acc.length + fuel ≤ 255 →
      readLexemeLoopAux code fuel pos acc = (code.length, acc ++ code.drop pos) := by
  intro fuel
  induction fuel with
  | zero =>
    intro pos acc hf hle hcond hlen
    have hp : pos = code.length := by omega
    subst hp
    simp [readLexemeLoopAux, List.drop_length]
  | succ n ih =>
    intro pos acc hf hle hcond hlen
    have hlt : pos < code.length := by omega
    obtain ⟨hws, hop, hpunct⟩ := hcond pos (le_refl _) hlt
    simp only [readLexemeLoopAux]
    rw [if_pos ⟨hlt, by simp [hws], by simp [hop], by simp [hpunct]⟩]
    rw [if_pos (show acc.length < 255 by omega)]
    rw [ih (pos + 1) _ (by omega) hlt (fun i h1 h2 => hcond i (by omega) h2) (by simp; omega)]
    have hdrop : code.drop pos = charAt code pos :: code.drop (pos + 1) := by
      rw [List.drop_eq_getElem_cons hlt]
      rw [show charAt code pos = code[pos] from List.getD_eq_getElem code _ hlt]
    rw [hdrop, List.append_assoc]
    rfl

/-- `read_lexeme` on a buffer that is one all-digit run starting at cursor
0: the whole input becomes one `Constant` token and the cursor backs off to
`length - 1` for the driving loop's uniform increment. -/
theorem read_lexeme_digit_run (la : LexicalAnalyzer) (c : Char) (t : List Char)
    (hpos : la.current_pos = 0)
    (hall : ∀ x ∈ c :: t, is_digit x = true)
    (hlen : (c :: t).length ≤ 255) :
    read_lexeme la (c :: t) =
      (⟨("Constant"), String.mk (c :: t)⟩,
        { la with current_pos := (c :: t).length - 1 }) := by
  obtain ⟨st, er, tk, pos, ln⟩ := la
  simp only at hpos
  subst hpos
  have hc : is_digit c = true := hall c (List.mem_cons_self c t)
  have hloop : readLexemeLoop (c :: t) 0 = ((c :: t).length, c :: t) := by
    unfold readLexemeLoop
    rw [readLexemeLoopAux_all (c :: t) ((c :: t).length - 0) 0 [] rfl (by omega)
      ?cond (by simpa using hlen)]
    · simp
    case cond =>
      intro i h1 h2
      have hch : charAt (c :: t) i = (c :: t)[i] := List.getD_eq_getElem _ _ h2
      rw [hch]
      exact digit_char_facts (hall _ (List.getElem_mem h2))
  unfold read_lexeme
  dsimp only
  rw [hloop]
  rw [if_neg (by rw [digit_lexeme_not_keyword t hc]; exact Bool.false_ne_true)]
  rw [if_neg (by simp)]
  rw [if_neg (by rw [digit_identValid_false t hc]; exact Bool.false_ne_true)]
  rw [if_pos (by simp [numericValid, hc, strtodConsumed_all_digits _ hall])]

/-- One driving-loop iteration over a buffer that is a single all-digit
run: the `Constant` token is pushed and the cursor lands on the length. -/
theorem tokenizeStep_digit_run (la : LexicalAnalyzer) (c : Char) (t : List Char)
    (hpos : la.current_pos = 0)
    (hall : ∀ x ∈ c :: t, is_digit x = true)
    (hlen : (c :: t).length ≤ 255) :
    tokenizeStep la (c :: t) =
      { la with
          tokens := la.tokens ++ [⟨("Constant"), String.mk (c :: t)⟩],
          current_pos := (c :: t).length } := by
  have hc : is_digit c = true := hall c (List.mem_cons_self c t)
  have hfacts := digit_char_facts hc
  have hrl := read_lexeme_digit_run la c t hpos hall hlen
  unfold tokenizeStep
  dsimp only
  rw [hpos]
  rw [show charAt (c :: t) 0 = c from rfl]
  rw [if_neg (by rw [hfacts.1]; exact Bool.false_ne_true)]
  rw [if_neg (fun hcc => absurd hcc.1 (digit_ne hc).1)]
  rw [if_pos (by simp [hc])]
  have hlen8 : (read_lexeme la (c :: t)).1.type.length = 8 := by rw [hrl]; rfl
  rw [hlen8]
  rw [if_pos (by decide : (0 : Nat) < 8)]
  rw [hrl]
  have hone : 1 ≤ (c :: t).length := by simp
  obtain ⟨st, er, tk, pos, ln⟩ := la
  simp only [push_token]
  rw [Nat.sub_add_cancel hone]

/-- The driving loop is the identity once the cursor has reached the end
of the buffer, whatever fuel remains. -/
theorem tokenizeLoopAux_exit (code : List Char) (fuel : Nat) (la : LexicalAnalyzer)
    (h : ¬ la.current_pos < code.length) : tokenizeLoopAux code fuel la = la := by
  cases fuel with
  | zero => rfl
  | succ n =>
    simp only [tokenizeLoopAux]
    rw [if_neg h]

/-- **C2 (amended)** For every well-formed *integer* literal — a nonempty
all-digit run that fits the 255-character lexeme buffer — scanned as the
whole input, the scan yields exactly one `Constant` token whose text is
the literal, and no error.  The original claim fails for floating-point
literals written with a period, because `.` is in the punctuation set and
splits the lexeme (see the counterexample on `3.14`); only period-free
and sign-free numeric forms survive as one lexeme. -/
theorem digit_run_yields_single_constant :
    ∀ (s : List Char), s ≠ [] → (∀ c ∈ s, is_digit c = true) → s.length ≤ 255 →
      (tokenize init_lexical_analyzer s).tokens = [⟨("Constant"), String.mk s⟩] ∧
      (tokenize init_lexical_analyzer s).lexical_errors = [] := by
  intro s hne hall hlen
  obtain ⟨c, t, rfl⟩ : ∃ c t, s = c :: t := by
    cases s with
    | nil => exact absurd rfl hne
    | cons c t => exact ⟨c, t, rfl⟩
  unfold tokenize
  simp only [tokenizeLoopAux]
  rw [if_pos (show (0 : Nat) < (c :: t).length by simp)]
  rw [tokenizeStep_digit_run _ c t rfl hall hlen]
  rw [if_neg ?hcond]
  case hcond => simp
  exact ⟨by simp, rfl⟩

/-- Witness for the amended C2 theorem at the integer literal `10`. -/
theorem digit_run_yields_single_constant_witness :
    (("10").toList ≠ []) ∧ (∀ c ∈ ("10").toList, is_digit c = true) ∧
    (("10").toList.length ≤ 255) ∧
    (tokenize init_lexical_analyzer ("10").toList).tokens =
      [⟨("Constant"), String.mk (("10").toList)⟩] ∧
    (tokenize init_lexical_analyzer ("10").toList).lexical_errors = [] :=
  ⟨by decide, by decide, by decide,
    (digit_run_yields_single_constant (("10").toList) (by decide) (by decide) (by decide)).1,
    (digit_run_yields_single_constant (("10").toList) (by decide) (by decide) (by decide)).2⟩

/-!  ## Cursor bounds: every loop advances and stays within the buffer  -/

theorem readLexemeLoopAux_pos_bounds (code : List Char) :
    ∀ fuel pos acc, pos ≤ (readLexemeLoopAux code fuel pos acc).1 ∧
      (readLexemeLoopAux code fuel pos acc).1 ≤ pos + fuel := by
  intro fuel
  induction fuel with
  | zero => intro pos acc; exact ⟨le_refl _, Nat.le_add_right _ _⟩
  | succ n ih =>
    intro pos acc
    simp only [readLexemeLoopAux]
    split_ifs <;>
      first
        | exact ⟨le_refl _, Nat.le_add_right _ _⟩
        | (obtain ⟨h1, h2⟩ := ih (pos + 1) (acc ++ [charAt code pos]);
            exact ⟨by omega, by omega⟩)
        | (obtain ⟨h1, h2⟩ := ih (pos + 1) acc; exact ⟨by omega, by omega⟩)

theorem readLexemeLoopAux_progress (code : List Char) (fuel pos : Nat) (acc : List Char)
    (hfuel : 0 < fuel) (hlt : pos < code.length)
    (hws : is_whitespace (charAt code pos) = false)
    (hop : strchrFound operator_chars (charAt code pos) = false)
    (hpunct : strchrFound punctuation (charAt code pos) = false) :
    pos + 1 ≤ (readLexemeLoopAux code fuel pos acc).1 := by
  cases fuel with
  | zero => omega
  | succ n =>
    simp only [readLexemeLoopAux]
    rw [if_pos ⟨hlt, by simp [hws], by simp [hop], by simp [hpunct]⟩]
    exact (readLexemeLoopAux_pos_bounds code n (pos + 1) _).1

theorem readQuotedLoopAux_pos_bounds (code : List Char) (quote : Char) :
    ∀ fuel pos acc, pos ≤ (readQuotedLoopAux code quote fuel pos acc).1 ∧
      (readQuotedLoopAux code quote fuel pos acc).1 ≤ pos + fuel := by
  intro fuel
  induction fuel with
  | zero => intro pos acc; exact ⟨le_refl _, Nat.le_add_right _ _⟩
  | succ n ih =>
    intro pos acc
    simp only [readQuotedLoopAux]
    split_ifs <;>
      first
        | exact ⟨le_refl _, Nat.le_add_right _ _⟩
        | (obtain ⟨h1, h2⟩ := ih (pos + 1) (acc ++ [charAt code pos]);
            exact ⟨by omega, by omega⟩)
        | (obtain ⟨h1, h2⟩ := ih (pos + 1) acc; exact ⟨by omega, by omega⟩)

theorem skipLineLoopAux_bounds (code : List Char) :
    ∀ fuel pos, pos ≤ skipLineLoopAux code fuel pos ∧
      skipLineLoopAux code fuel pos ≤ pos + fuel := by
  intro fuel
  induction fuel with
  | zero => intro pos; exact ⟨le_refl _, Nat.le_add_right _ _⟩
  | succ n ih =>
    intro pos
    simp only [skipLineLoopAux]
    split_ifs with h
    · obtain ⟨h1, h2⟩ := ih (pos + 1)
      exact ⟨by omega, by omega⟩
    · exact ⟨le_refl _, Nat.le_add_right _ _⟩

theorem skipBlockLoopAux_pos_bounds (code : List Char) :
    ∀ fuel pos line, pos ≤ (skipBlockLoopAux code fuel pos line).1 ∧
      (skipBlockLoopAux code fuel pos line).1 ≤ pos + fuel := by
  intro fuel
  induction fuel with
  | zero => intro pos line; exact ⟨le_refl _, Nat.le_add_right _ _⟩
  | succ n ih =>
    intro pos line
    simp only [skipBlockLoopAux]
    split_ifs <;>
      first
        | exact ⟨le_refl _, Nat.le_add_right _ _⟩
        | exact ⟨Nat.le_succ _, by omega⟩
        | (obtain ⟨h4, h5⟩ := ih (pos + 1) (line + 1); exact ⟨by omega, by omega⟩)
        | (obtain ⟨h4, h5⟩ := ih (pos + 1) line; exact ⟨by omega, by omega⟩)

theorem skip_comment_pos_bounds (la : LexicalAnalyzer) (code : List Char)
    (h : la.current_pos < code.length) :
    la.current_pos ≤ (skip_comment la code).current_pos ∧
    (skip_comment la code).current_pos ≤ code.length := by
  unfold skip_comment
  dsimp only
  split_ifs with h1 h2
  · obtain ⟨hb1, hb2⟩ := skipLineLoopAux_bounds code (code.length - la.current_pos) la.current_pos
    exact ⟨hb1,
      (by omega : skipLineLoopAux code (code.length - la.current_pos) la.current_pos ≤
        code.length)⟩
  · obtain ⟨hc, _⟩ := h2
    obtain ⟨hb1, hb2⟩ := skipBlockLoopAux_pos_bounds code
      ((code.length - 1) - (la.current_pos + 2)) (la.current_pos + 2) la.line_no
    exact ⟨(by omega : la.current_pos ≤ (skipBlockLoopAux code
        ((code.length - 1) - (la.current_pos + 2)) (la.current_pos + 2) la.line_no).1),
      (by omega : (skipBlockLoopAux code
        ((code.length - 1) - (la.current_pos + 2)) (la.current_pos + 2) la.line_no).1 ≤
        code.length)⟩
  · exact ⟨le_refl _, le_of_lt h⟩

theorem read_operator_pos_bounds (la : LexicalAnalyzer) (code : List Char)
    (h : la.current_pos < code.length) :
    la.current_pos ≤ (read_operator la code).2.current_pos ∧
    (read_operator la code).2.current_pos < code.length := by
  unfold read_operator
  dsimp only
  split_ifs with h1 h2 <;> dsimp only
  · exact ⟨Nat.le_succ _, h1⟩
  · exact ⟨le_refl _, h⟩
  · exact ⟨le_refl _, h⟩

theorem read_lexeme_pos_eq (la : LexicalAnalyzer) (code : List Char) :
    (read_lexeme la code).2.current_pos = (readLexemeLoop code la.current_pos).1 - 1 := by
  rcases read_lexeme_state_cases la code with hs | hs | hs <;> rw [hs] <;>
    first
      | exact push_symbol_pos _ _
      | rfl

theorem ident_char_facts {c : Char}
    (hn : (65 ≤ c.toNat ∧ c.toNat ≤ 90) ∨ (97 ≤ c.toNat ∧ c.toNat ≤ 122) ∨
      c.toNat = 95 ∨ (48 ≤ c.toNat ∧ c.toNat ≤ 57)) :
    is_whitespace c = false ∧ strchrFound operator_chars c = false ∧
    strchrFound punctuation c = false := by
  refine ⟨?_, ?_, ?_⟩
  · by_contra hh
    rw [Bool.not_eq_false] at hh
    simp only [is_whitespace, Bool.or_eq_true, decide_eq_true_eq] at hh
    rcases hh with ((h1 | h1) | h1) | h1 <;> subst h1 <;> revert hn <;> decide
  · by_contra hh
    rw [Bool.not_eq_false] at hh
    simp only [strchrFound, Bool.or_eq_true, decide_eq_true_eq] at hh
    rcases hh with h1 | h1
    · subst h1; revert hn; decide
    · have hmem := List.mem_of_elem_eq_true h1
      simp only [operator_chars, List.mem_cons, List.not_mem_nil, or_false] at hmem
      rcases hmem with h1 | h1 | h1 | h1 | h1 | h1 | h1 | h1 | h1 | h1 | h1 | h1 | h1 <;>
        subst h1 <;> revert hn <;> decide
  · by_contra hh
    rw [Bool.not_eq_false] at hh
    simp only [strchrFound, Bool.or_eq_true, decide_eq_true_eq] at hh
    rcases hh with h1 | h1
    · subst h1; revert hn; decide
    · have hmem := List.mem_of_elem_eq_true h1
      simp only [punctuation, List.mem_cons, List.not_mem_nil, or_false] at hmem
      rcases hmem with h1 | h1 | h1 | h1 | h1 | h1 | h1 | h1 | h1 <;>
        subst h1 <;> revert hn <;> decide

theorem lexeme_head_facts {c : Char}
    (h : (is_letter c || c = '_' || is_digit c) = true) :
    is_whitespace c = false ∧ strchrFound operator_chars c = false ∧
    strchrFound punctuation c = false := by
  refine ident_char_facts ?_
  simp only [Bool.or_eq_true, decide_eq_true_eq] at h
  rcases h with (h | h) | h
  · unfold is_letter tolower at h
    split_ifs at h with h1
    · simp only [Bool.and_eq_true, decide_eq_true_eq] at h1
      exact Or.inl h1
    · simp only [Bool.and_eq_true, decide_eq_true_eq] at h
      exact Or.inr (Or.inl h)
  · subst h
    exact Or.inr (Or.inr (Or.inl rfl))
  · exact Or.inr (Or.inr (Or.inr (is_digit_toNat h)))

/-- Each driving-loop iteration started strictly inside the buffer advances
the cursor by at least one and lands at most one past the length. -/
theorem tokenizeStep_pos_bounds (la : LexicalAnalyzer) (code : List Char)
    (h : la.current_pos < code.length) :
    la.current_pos + 1 ≤ (tokenizeStep la code).current_pos ∧
    (tokenizeStep la code).current_pos ≤ code.length + 1 := by
  unfold tokenizeStep
  dsimp only
  split_ifs with h1 h2 h3 h4 h5 h6 h7 h8 h9
  · exact ⟨le_refl _, (by omega : la.current_pos + 1 ≤ code.length + 1)⟩
  · exact ⟨le_refl _, (by omega : la.current_pos + 1 ≤ code.length + 1)⟩
  · obtain ⟨hb1, hb2⟩ := skip_comment_pos_bounds la code h
    exact ⟨(by omega : la.current_pos + 1 ≤ (skip_comment la code).current_pos + 1),
      (by omega : (skip_comment la code).current_pos + 1 ≤ code.length + 1)⟩
  · have hpe := read_lexeme_pos_eq la code
    unfold readLexemeLoop at hpe
    have hb := readLexemeLoopAux_pos_bounds code (code.length - la.current_pos)
      la.current_pos ([] : List Char)
    have hprog : la.current_pos + 1 ≤
        (readLexemeLoopAux code (code.length - la.current_pos) la.current_pos []).1 := by
      obtain ⟨hws, hop, hpunct⟩ := lexeme_head_facts (by assumption)
      exact readLexemeLoopAux_progress code _ _ _ (by omega) h hws hop hpunct
    obtain ⟨hb1, hb2⟩ := hb
    exact ⟨(by omega : la.current_pos + 1 ≤ (read_lexeme la code).2.current_pos + 1),
      (by omega : (read_lexeme la code).2.current_pos + 1 ≤ code.length + 1)⟩
  · have hpe := read_lexeme_pos_eq la code
    unfold readLexemeLoop at hpe
    have hb := readLexemeLoopAux_pos_bounds code (code.length - la.current_pos)
      la.current_pos ([] : List Char)
    have hprog : la.current_pos + 1 ≤
        (readLexemeLoopAux code (code.length - la.current_pos) la.current_pos []).1 := by
      obtain ⟨hws, hop, hpunct⟩ := lexeme_head_facts (by assumption)
      exact readLexemeLoopAux_progress code _ _ _ (by omega) h hws hop hpunct
    obtain ⟨hb1, hb2⟩ := hb
    exact ⟨(by omega : la.current_pos + 1 ≤ (read_lexeme la code).2.current_pos + 1),
      (by omega : (read_lexeme la code).2.current_pos + 1 ≤ code.length + 1)⟩
  · obtain ⟨hb1, hb2⟩ := readQuotedLoopAux_pos_bounds code dquote
      (code.length - (la.current_pos + 1)) (la.current_pos + 1) [dquote]
    exact ⟨(by omega : la.current_pos + 1 ≤ (readQuotedLoopAux code dquote
        (code.length - (la.current_pos + 1)) (la.current_pos + 1) [dquote]).1 + 1),
      (by omega : (readQuotedLoopAux code dquote
        (code.length - (la.current_pos + 1)) (la.current_pos + 1) [dquote]).1 + 1 ≤
        code.length + 1)⟩
  · obtain ⟨hb1, hb2⟩ := readQuotedLoopAux_pos_bounds code squote
      (code.length - (la.current_pos + 1)) (la.current_pos + 1) [squote]
    exact ⟨(by omega : la.current_pos + 1 ≤ (readQuotedLoopAux code squote
        (code.length - (la.current_pos + 1)) (la.current_pos + 1) [squote]).1 + 1),
      (by omega : (readQuotedLoopAux code squote
        (code.length - (la.current_pos + 1)) (la.current_pos + 1) [squote]).1 + 1 ≤
        code.length + 1)⟩
  · obtain ⟨hb1, hb2⟩ := read_operator_pos_bounds la code h
    exact ⟨(by omega : la.current_pos + 1 ≤ (read_operator la code).2.current_pos + 1),
      (by omega : (read_operator la code).2.current_pos + 1 ≤ code.length + 1)⟩
  · exact ⟨le_refl _, (by omega : la.current_pos + 1 ≤ code.length + 1)⟩
  · exact ⟨le_refl _, (by omega : la.current_pos + 1 ≤ code.length + 1)⟩

theorem tokenizeLoopAux_final_pos (code : List Char) :
    ∀ fuel la, code.length ≤ la.current_pos + fuel → la.current_pos ≤ code.length + 1 →
      code.length ≤ (tokenizeLoopAux code fuel la).current_pos ∧
      (tokenizeLoopAux code fuel la).current_pos ≤ code.length + 1 := by
  intro fuel
  induction fuel with
  | zero =>
    intro la h1 h2
    exact ⟨(by omega : code.length ≤ la.current_pos), h2⟩
  | succ n ih =>
    intro la h1 h2
    simp only [tokenizeLoopAux]
    split_ifs with h
    · obtain ⟨hs1, hs2⟩ := tokenizeStep_pos_bounds la code h
      exact ih (tokenizeStep la code) (by omega) (by omega)
    · exact ⟨by omega, h2⟩

/-- **C1 (amended)** Every scan terminates — the driving loop's exit
condition `current_pos < length` is reached within the fuel `tokenize`
supplies, which is what the lower bound states — and the final cursor is
the input length or the input length plus one.  The original claim that
the cursor ends *exactly* at the length fails when an unterminated literal
or a comment runs to the end of the input, where the loop body leaves the
cursor at the length and the uniform increment pushes it one past (see the
counterexample on the input consisting only of a line comment). -/
theorem tokenize_terminates_cursor_bounds (la : LexicalAnalyzer) (code : List Char) :
    code.length ≤ (tokenize la code).current_pos ∧
    (tokenize la code).current_pos ≤ code.length + 1 := by
  unfold tokenize
  exact tokenizeLoopAux_final_pos code (code.length + 1)
    { la with tokens := [], current_pos := 0 }
    (by show code.length ≤ 0 + (code.length + 1); omega)
    (by show (0 : Nat) ≤ code.length + 1; omega)
